import Mathlib

/-!
Verification of the Kudu storage/replication core specification against a
shallow embedding of the repository's source.  Each definition below is
translated from a function in `src/` (file and function named in its doc
comment); parts of the repository that are referenced by the sources but are
not present under `src/` are modelled from the specification and marked as
such.
-/

set_option maxHeartbeats 1000000

namespace kudu

/-- Shallow embedding of `kudu::Status` (`src/kudu/util/status.h` is not under
`src/`, but the spec section 7 enumerates the error kinds and the optional
posix code carried by `IOError`).  Only the kinds the verified code paths
produce are modelled. -/
inductive Status where
  | ok
  | corruption (msg : String)
  | notFound (msg : String)
  | illegalState (msg : String)
  | ioError (msg : String) (posixCode : Option Nat)
  | notSupported (msg : String)
  | serviceUnavailable (msg : String)
deriving DecidableEq, Repr

def Status.isOK : Status → Bool
  | .ok => true
  | _ => false

/-- `Status::CloneAndPrepend` / `RETURN_NOT_OK_PREPEND`: the kind and posix
code are preserved, the message is prepended. -/
def Status.prepend (extra : String) : Status → Status
  | .ok => .ok
  | .corruption m => .corruption (extra ++ ": " ++ m)
  | .notFound m => .notFound (extra ++ ": " ++ m)
  | .illegalState m => .illegalState (extra ++ ": " ++ m)
  | .ioError m c => .ioError (extra ++ ": " ++ m) c
  | .notSupported m => .notSupported (extra ++ ": " ++ m)
  | .serviceUnavailable m => .serviceUnavailable (extra ++ ": " ++ m)

def Status.isIOError : Status → Bool
  | .ioError _ _ => true
  | _ => false

namespace cfile

/-- Modelled from the spec: the numeric values of the `DictEncodingMode` enum
live in `binary_dict_block.h`, which is not under `src/`.  The spec (section 6)
fixes the on-disk binary-dict block header as a fixed 32-bit little-endian
mode with 0 = codeword and 1 = plain. -/
inductive DictEncodingMode where
  | kCodeWordMode
  | kPlainBinaryMode
deriving DecidableEq, Repr

/-- The fixed 32-bit header value written for a mode (`InlineEncodeFixed32` in
`BinaryDictBlockBuilder::Finish`, `binary_dict_block.cc:84-85`), with the
numeric values modelled from the spec (0 = codeword, 1 = plain). -/
def DictEncodingMode.toFixed32 : DictEncodingMode → Nat
  | .kCodeWordMode => 0
  | .kPlainBinaryMode => 1

/-- Modelled from the spec: `tight_enum_test_cast<DictEncodingMode>` from
`gutil/casts.h` (not under `src/`) accepts exactly the values inside the
enum's range and rejects everything else. -/
def tightEnumTestCastDictMode (v : Nat) : Option DictEncodingMode :=
  if v = 0 then some .kCodeWordMode
  else if v = 1 then some .kPlainBinaryMode
  else none

/-- Modelled from the spec: `BinaryPlainBlockBuilder`
(`binary_plain_block.{h,cc}` is not under `src/`).  Per spec section 4.B a
plain binary block holds a header of entry count plus per-entry offsets with
the bytes concatenated, and reports full once its size estimate exceeds the
configured CFile block size.  It is used both for the file-level dictionary
block and as the data builder in plain-binary mode. -/
structure BinaryPlainBlockBuilder where
  blockSize : Nat
  entries : List String
  sizeEstimate : Nat
deriving DecidableEq, Repr

/-- Modelled from the spec: `BinaryPlainBlockBuilder::IsBlockFull`. -/
def BinaryPlainBlockBuilder.isBlockFull (b : BinaryPlainBlockBuilder) : Bool :=
  b.blockSize < b.sizeEstimate

/-- Modelled from the spec: one iteration of `BinaryPlainBlockBuilder::Add`:
append a single entry unless the block is already full (in which case zero
entries are added); each entry costs its bytes plus a 4-byte offset. -/
def BinaryPlainBlockBuilder.addOne (b : BinaryPlainBlockBuilder) (v : String) :
    Option BinaryPlainBlockBuilder :=
  if b.isBlockFull then none
  else some { b with entries := b.entries ++ [v],
                     sizeEstimate := b.sizeEstimate + v.length + 4 }

/-- Modelled from the spec: `BinaryPlainBlockBuilder::Add(vals, count)`:
appends entries until the block reports full, returning how many were
appended. -/
def BinaryPlainBlockBuilder.add :
    BinaryPlainBlockBuilder → List String → Nat × BinaryPlainBlockBuilder
  | b, [] => (0, b)
  | b, v :: vs =>
    match b.addOne v with
    | none => (0, b)
    | some b1 =>
      let r := b1.add vs
      (r.1 + 1, r.2)

/-- Modelled from the spec: `BinaryPlainBlockBuilder::Reset`. -/
def BinaryPlainBlockBuilder.reset (b : BinaryPlainBlockBuilder) :
    BinaryPlainBlockBuilder :=
  { b with entries := [], sizeEstimate := 4 }

/-- Modelled from the spec: `BShufBlockBuilder<UINT32>` (`bshuf_block.h` is not
under `src/`).  It holds up to a fixed per-block element capacity; `addOne`
appends one value and returns how many were appended (zero when no capacity
remains), and the block reports full when no capacity remains. -/
structure BShufBlockBuilderU32 where
  capacity : Nat
  vals : List Nat
deriving DecidableEq, Repr

def BShufBlockBuilderU32.isBlockFull (b : BShufBlockBuilderU32) : Bool :=
  b.capacity ≤ b.vals.length

def BShufBlockBuilderU32.addOne (b : BShufBlockBuilderU32) (cw : Nat) :
    Nat × BShufBlockBuilderU32 :=
  if b.capacity ≤ b.vals.length then (0, b)
  else (1, { b with vals := b.vals ++ [cw] })

def BShufBlockBuilderU32.reset (b : BShufBlockBuilderU32) : BShufBlockBuilderU32 :=
  { b with vals := [] }

/-- The data builder held by `BinaryDictBlockBuilder::data_builder_`: a
`BShufBlockBuilder<UINT32>` in codeword mode, a `BinaryPlainBlockBuilder` in
plain-binary mode (`binary_dict_block.cc:61,73`). -/
inductive DataBuilder where
  | bshuf (b : BShufBlockBuilderU32)
  | plain (b : BinaryPlainBlockBuilder)
deriving DecidableEq, Repr

def DataBuilder.isBlockFull : DataBuilder → Bool
  | .bshuf b => b.isBlockFull
  | .plain b => b.isBlockFull

def DataBuilder.reset : DataBuilder → DataBuilder
  | .bshuf b => .bshuf b.reset
  | .plain b => .plain b.reset

/-- The contents a finished data block carries after the 4-byte mode header:
codeword indices in codeword mode, raw strings in plain mode. -/
inductive BlockContents where
  | codewords (cws : List Nat)
  | plainStrings (vs : List String)
deriving DecidableEq, Repr

def DataBuilder.contents : DataBuilder → BlockContents
  | .bshuf b => .codewords b.vals
  | .plain b => .plainStrings b.entries

/-- State of `BinaryDictBlockBuilder` (`binary_dict_block.cc:56-194`):
the current mode, the file-level dictionary block (`dict_block_`), the
string-to-codeword hash map (`dictionary_`, embedded as an association list in
insertion order), the per-block data builder, the first key of the current
block and the finished flag.  `cfileBlockSize` stands for
`options_->storage_attributes.cfile_block_size`, used when a fresh plain data
builder is created on the switch to plain mode. -/
structure BinaryDictBlockBuilder where
  cfileBlockSize : Nat
  mode : DictEncodingMode
  dict_block : BinaryPlainBlockBuilder
  dictionary : List (String × Nat)
  data_builder : DataBuilder
  first_key : String
  finished : Bool
deriving DecidableEq, Repr

/-- `FindCopy(dictionary_, current_item, &codeword)`
(`binary_dict_block.cc:120`): hash-map lookup, embedded as first match in the
insertion-ordered association list. -/
def findCopy (d : List (String × Nat)) (v : String) : Option Nat :=
  (d.find? (fun p => p.1 == v)).map (fun p => p.2)

/-- Consistency of the `dictionary_` hash map with the `dict_block_`
contents: every mapped codeword indexes exactly its string in the dictionary
block.  The builder establishes this by inserting each distinct string into
both at the same time (`binary_dict_block.cc:134-144`). -/
def dictConsistent (dict_block : BinaryPlainBlockBuilder)
    (dictionary : List (String × Nat)) : Prop :=
  ∀ p ∈ dictionary, dict_block.entries.get? p.2 = some p.1

/-- `BinaryDictBlockBuilder::AddToDict` (`binary_dict_block.cc:134-144`),
acting on the `dict_block_` / `dictionary_` pair: fails (returns `none`) iff
the dictionary block is full; otherwise the value is appended to the
dictionary block, its codeword is `dict_block_.Count() - 1`, and the pair
(value, codeword) is inserted into the hash map. -/
def addToDict (dict_block : BinaryPlainBlockBuilder) (dictionary : List (String × Nat))
    (val : String) : Option (Nat × BinaryPlainBlockBuilder × List (String × Nat)) :=
  match dict_block.addOne val with
  | none => none
  | some db =>
    let codeword := db.entries.length - 1
    some (codeword, db, dictionary ++ [(val, codeword)])

/-- The loop of `BinaryDictBlockBuilder::AddCodeWords`
(`binary_dict_block.cc:115-131`), threading `dict_block_`, `dictionary_` and
the `BShufBlockBuilder<UINT32>` data builder.  For each value: look it up in
the dictionary, inserting it via `AddToDict` when absent (breaking out when
the dictionary block is full), then append its codeword to the data builder
(breaking out when that returns 0, i.e. the data block is full).  Returns how
many input values were appended together with the final state. -/
def addCodeWordsLoop (dict_block : BinaryPlainBlockBuilder)
    (dictionary : List (String × Nat)) (db : BShufBlockBuilderU32) :
    List String →
      Nat × BinaryPlainBlockBuilder × List (String × Nat) × BShufBlockBuilderU32
  | [] => (0, dict_block, dictionary, db)
  | v :: vs =>
    match findCopy dictionary v with
    | some cw =>
      let a := db.addOne cw
      if a.1 = 0 then (0, dict_block, dictionary, db)
      else
        let r := addCodeWordsLoop dict_block dictionary a.2 vs
        (r.1 + 1, r.2)
    | none =>
      match addToDict dict_block dictionary v with
      | none => (0, dict_block, dictionary, db)
      | some (cw, dict_block1, dictionary1) =>
        let a := db.addOne cw
        if a.1 = 0 then (0, dict_block1, dictionary1, db)
        else
          let r := addCodeWordsLoop dict_block1 dictionary1 a.2 vs
          (r.1 + 1, r.2)

/-- `BinaryDictBlockBuilder::AddCodeWords` (`binary_dict_block.cc:105-132`):
record the first key when the data builder is empty, then run the add loop.
If the data builder is not the codeword-mode bshuf builder nothing is added
(the C++ only calls this in codeword mode, where `data_builder_` is always a
`BShufBlockBuilder<UINT32>`). -/
def BinaryDictBlockBuilder.addCodeWords (b : BinaryDictBlockBuilder)
    (vs : List String) : Nat × BinaryDictBlockBuilder :=
  match b.data_builder with
  | .plain _ => (0, b)
  | .bshuf db =>
    let fk := if db.vals.length = 0 then vs.headD b.first_key else b.first_key
    let r := addCodeWordsLoop b.dict_block b.dictionary db vs
    (r.1, { b with dict_block := r.2.1, dictionary := r.2.2.1,
                   data_builder := .bshuf r.2.2.2, first_key := fk })

/-- `BinaryDictBlockBuilder::Add` (`binary_dict_block.cc:146-153`). -/
def BinaryDictBlockBuilder.add (b : BinaryDictBlockBuilder) (vs : List String) :
    Nat × BinaryDictBlockBuilder :=
  match b.mode with
  | .kCodeWordMode => b.addCodeWords vs
  | .kPlainBinaryMode =>
    match b.data_builder with
    | .plain pb =>
      let r := pb.add vs
      (r.1, { b with data_builder := .plain r.2 })
    | .bshuf _ => (0, b)

/-- `BinaryDictBlockBuilder::Reset` (`binary_dict_block.cc:69-79`): in
codeword mode with a full dictionary block, switch permanently to plain-binary
mode with a fresh `BinaryPlainBlockBuilder`; otherwise reset the current data
builder.  Either way the builder is no longer finished. -/
def BinaryDictBlockBuilder.resetBuilder (b : BinaryDictBlockBuilder) :
    BinaryDictBlockBuilder :=
  if b.mode = .kCodeWordMode ∧ b.dict_block.isBlockFull then
    { b with mode := .kPlainBinaryMode,
             data_builder := .plain ⟨b.cfileBlockSize, [], 4⟩,
             finished := false }
  else
    { b with data_builder := b.data_builder.reset, finished := false }

/-- `BinaryDictBlockBuilder::Finish` (`binary_dict_block.cc:81-91`): mark
finished and emit the block as the fixed 32-bit mode header followed by the
data builder's slices. -/
def BinaryDictBlockBuilder.finish (b : BinaryDictBlockBuilder) :
    (Nat × BlockContents) × BinaryDictBlockBuilder :=
  ((b.mode.toFixed32, b.data_builder.contents), { b with finished := true })

/-- `BinaryDictBlockBuilder::IsBlockFull` (`binary_dict_block.cc:99-103`). -/
def BinaryDictBlockBuilder.isBlockFull (b : BinaryDictBlockBuilder) : Bool :=
  if b.data_builder.isBlockFull then true
  else if b.dict_block.isBlockFull && (b.mode = .kCodeWordMode) then true
  else false

/-- One call into the builder's public mutating interface (`Add`, `Finish`,
`Reset`). -/
inductive BuilderOp where
  | add (vs : List String)
  | finish
  | reset

def BinaryDictBlockBuilder.applyOp (b : BinaryDictBlockBuilder) :
    BuilderOp → BinaryDictBlockBuilder
  | .add vs => (b.add vs).2
  | .finish => b.finish.2
  | .reset => b.resetBuilder

def BinaryDictBlockBuilder.applyOps (b : BinaryDictBlockBuilder)
    (ops : List BuilderOp) : BinaryDictBlockBuilder :=
  ops.foldl BinaryDictBlockBuilder.applyOp b

/-- Fresh builder as constructed in `binary_dict_block.cc:56-67`: codeword
mode, empty dictionary, a `BShufBlockBuilder<UINT32>` data builder. -/
def BinaryDictBlockBuilder.mkNew (cfileBlockSize capacity : Nat) :
    BinaryDictBlockBuilder :=
  { cfileBlockSize := cfileBlockSize,
    mode := .kCodeWordMode,
    dict_block := ⟨cfileBlockSize, [], 4⟩,
    dictionary := [],
    data_builder := .bshuf ⟨capacity, []⟩,
    first_key := "",
    finished := false }

/-- `kMinHeaderSize` of the binary-dict block decoder.  Modelled from the
spec: the constant is declared in `binary_dict_block.h` (not under `src/`);
per spec section 6 the header is a fixed 32-bit mode field, so the minimum
header size is 4 bytes. -/
def kMinHeaderSize : Nat := 4

/-- `DecodeFixed32` (`util/coding.h`, not under `src/`): little-endian decode
of the first four bytes. -/
def decodeFixed32 (bytes : List Nat) : Nat :=
  bytes.headD 0 % 256
    + (bytes.getD 1 0 % 256) * 256
    + (bytes.getD 2 0 % 256) * 65536
    + (bytes.getD 3 0 % 256) * 16777216

/-- Modelled from the spec: the state of the underlying data decoder
(`BShufBlockDecoder<UINT32>` or `BinaryPlainBlockDecoder`, neither under
`src/`) as far as seeking is concerned: the decoded values and the current
index.  `count` is `Count()`, i.e. the number of elements in the block. -/
structure DataDecoderState where
  vals : List Nat
  curIdx : Nat
deriving DecidableEq, Repr

def DataDecoderState.count (d : DataDecoderState) : Nat := d.vals.length

/-- `SeekToPositionInBlock(pos)` on the data decoder: sets the current index
(modelled from the spec; the implementation lives in `bshuf_block.h`). -/
def DataDecoderState.seekToPositionInBlock (d : DataDecoderState) (pos : Nat) :
    DataDecoderState :=
  { d with curIdx := pos }

/-- Memcmp-style lexicographic comparison of byte strings, as
`Slice::compare` performs it (`gutil/strings`, not under `src/`): strictly
less when a shorter string is a proper prefix or the first differing byte is
smaller. -/
def sliceLt : List Nat → List Nat → Bool
  | [], [] => false
  | [], _ :: _ => true
  | _ :: _, [] => false
  | a :: as, b :: bs => if a < b then true else if b < a then false else sliceLt as bs

/-- `v <= k` in the memcmp order: not `k < v`. -/
def sliceLe (v k : List Nat) : Bool := !sliceLt k v

/-- Modelled from the spec: `BinaryPlainBlockDecoder::SeekAtOrAfterValue` on
the file-level dictionary block (`binary_plain_block.cc` is not under
`src/`).  It positions at the first key at-or-after the target and reports
whether the match is exact; a value beyond the largest key yields `NotFound`.
Returns (status, index, exact). -/
def dictSeekAtOrAfter (keys : List (List Nat)) (v : List Nat) : Status × Nat × Bool :=
  match keys.findIdx? (fun k => sliceLe v k) with
  | some j => (.ok, j, keys.getD j [] == v)
  | none => (.notFound "after last key in block", keys.length, false)

/-- Modelled from the spec: `BShufBlockDecoder<UINT32>::SeekAtOrAfterValue`
over the codewords of the current data block (sorted blocks only): position
at the first value at-or-after the target, `NotFound` past the end. -/
def DataDecoderState.seekAtOrAfterValue (d : DataDecoderState) (target : Nat) :
    Status × DataDecoderState × Bool :=
  match d.vals.findIdx? (fun x => target ≤ x) with
  | some j => (.ok, { d with curIdx := j }, d.vals.getD j 0 == target)
  | none => (.notFound "after last key in block", { d with curIdx := d.vals.length }, false)

/-- `BinaryDictBlockDecoder::SeekAtOrAfterValue` in codeword mode
(`binary_dict_block.cc:243-263`): seek the dictionary decoder to the value;
if that fails (the value is larger than the largest dictionary key), seek the
data decoder to `Count() - 1` and return the failing status; otherwise seek
the data decoder to the found dictionary index.  Returns
(status, data decoder state, exact). -/
def seekAtOrAfterValueCodeWord (dictKeys : List (List Nat)) (dd : DataDecoderState)
    (v : List Nat) : Status × DataDecoderState × Bool :=
  let r := dictSeekAtOrAfter dictKeys v
  if r.1.isOK then
    let s := dd.seekAtOrAfterValue r.2.1
    (s.1, s.2.1, r.2.2)
  else
    (r.1, dd.seekToPositionInBlock (dd.count - 1), r.2.2)

/-- State of `BinaryDictBlockDecoder` relevant to `ParseHeader`
(`binary_dict_block.cc:200-237`): the block bytes, the parsed flag and the
decoded mode. -/
structure BinaryDictBlockDecoder where
  data : List Nat
  parsed : Bool
  mode : DictEncodingMode
deriving DecidableEq, Repr

/-- `BinaryDictBlockDecoder::ParseHeader` (`binary_dict_block.cc:209-237`).
`subParse` stands for the sub-decoder's own `ParseHeader` on the sub-block
past the 4-byte header (`BShufBlockDecoder<UINT32>` for codeword mode,
`BinaryPlainBlockDecoder` for plain mode; neither is under `src/`, so its
verdict is taken as a parameter).  Returns the status and the updated
decoder. -/
def BinaryDictBlockDecoder.parseHeader
    (subParse : DictEncodingMode → List Nat → Status)
    (d : BinaryDictBlockDecoder) : Status × BinaryDictBlockDecoder :=
  if d.data.length < kMinHeaderSize then
    (.corruption "not enough bytes for header", d)
  else
    match tightEnumTestCastDictMode (decodeFixed32 d.data) with
    | none => (.corruption "header Mode information corrupted", d)
    | some m =>
      let sub := d.data.drop 4
      let s := subParse m sub
      if s.isOK then (.ok, { d with parsed := true, mode := m })
      else (s, { d with mode := m })

end cfile

namespace consensus

/-- State of a consensus `Peer` (`consensus_peers.cc`): the booleans and
counters guarded by `peer_lock_`, plus whether the peer is still tracked by
the queue, whether the heartbeat timer is running, and how many RPCs are in
flight (issued, response callback not yet run).  `outstandingRpcs` is not a
C++ field; it counts the asynchronous RPCs issued by `SendNextRequest` and
consumed by the response callbacks, so that the at-most-one-outstanding
property can be stated. -/
structure PeerState where
  closed : Bool
  requestPending : Bool
  failedAttempts : Nat
  hasSentFirstRequest : Bool
  tracked : Bool
  heartbeaterRunning : Bool
  outstandingRpcs : Nat
  queuedDoProcessResponse : Nat
deriving DecidableEq, Repr

/-- The peer state right after `Peer::Peer` plus `Peer::Init`
(`consensus_peers.cc:125-166`): not closed, no pending request, zero failed
attempts, first request not yet sent, tracked by the queue, heartbeater
started, no RPC in flight. -/
def Peer.init : PeerState :=
  { closed := false, requestPending := false, failedAttempts := 0,
    hasSentFirstRequest := false, tracked := true, heartbeaterRunning := true,
    outstandingRpcs := 0, queuedDoProcessResponse := 0 }

/-- `Peer::SignalRequest` (`consensus_peers.cc:168-192`).  `submitOk` is the
verdict of `raft_pool_token_->Submit`.  Returns the status and whether a
`SendNextRequest` task was submitted to the pool; the peer state itself is
not modified. -/
def PeerState.signalRequest (s : PeerState) (submitOk : Bool) : Status × Bool :=
  if s.closed then (.illegalState "peer closed", false)
  else if s.requestPending then (.ok, false)
  else if submitOk then (.ok, true)
  else (.serviceUnavailable "pool shut down", false)

/-- The environment a single `SendNextRequest` run observes: the argument
`even_if_queue_empty`, the verdicts of `queue_->RequestForPeer`,
`CreateProxyIfNeeded`, the needs-tablet-copy flag, the `enable_tablet_copy`
gflag, `queue_->GetTabletCopyRequestForPeer`, and whether the populated
request has ops or advances the committed index. -/
structure SendEnv where
  evenIfQueueEmpty : Bool
  queueStatusOk : Bool
  proxyOk : Bool
  needsTabletCopy : Bool
  enableTabletCopyFlag : Bool
  tcRequestOk : Bool
  reqHasOps : Bool
deriving DecidableEq, Repr

/-- `Peer::SendNextRequest` (`consensus_peers.cc:194-304`), including
`Peer::PrepareTabletCopyRequest` (`consensus_peers.cc:433-440`).  Returns
early without sending when closed or a request is pending; forces
`even_if_queue_empty` before the first request; skips after a failed attempt
unless a heartbeat; issues either a `StartTabletCopy` or an
`UpdateConsensus` RPC, setting `request_pending_` before the RPC goes out. -/
def PeerState.sendNextRequest (s : PeerState) (env : SendEnv) : PeerState :=
  if s.closed then s
  else if s.requestPending then s
  else if 0 < s.failedAttempts && !(env.evenIfQueueEmpty || !s.hasSentFirstRequest) then s
  else if !env.queueStatusOk then s
  else if !env.proxyOk then s
  else if env.needsTabletCopy then
    if !env.enableTabletCopyFlag then
      { s with failedAttempts := s.failedAttempts + 1 }
    else if !env.tcRequestOk then s
    else
      { s with requestPending := true, outstandingRpcs := s.outstandingRpcs + 1 }
  else if !env.reqHasOps && !(env.evenIfQueueEmpty || !s.hasSentFirstRequest) then s
  else
    { s with hasSentFirstRequest := true,
             requestPending := true,
             outstandingRpcs := s.outstandingRpcs + 1 }

/-- The ways `Peer::ProcessResponse` classifies a completed `UpdateConsensus`
RPC (`consensus_peers.cc:338-412`): an RPC-layer or remote controller error,
a consensus `CANNOT_PREPARE` error, a tserver-level error, or success (in
which case `DoProcessResponse` is submitted to the pool; `submitOk` is that
submission's verdict). -/
inductive ResponseKind where
  | controllerError
  | cannotPrepare
  | tserverError
  | success (submitOk : Bool)
deriving DecidableEq, Repr

/-- `Peer::ProcessResponseErrorUnlocked` (`consensus_peers.cc:473-499`):
increment the failure counter and clear `request_pending_`. -/
def PeerState.processResponseErrorUnlocked (s : PeerState) : PeerState :=
  { s with failedAttempts := s.failedAttempts + 1, requestPending := false }

/-- `Peer::ProcessResponse` (`consensus_peers.cc:338-412`), running as the
RPC callback (which consumes the in-flight RPC).  If the peer is closed it
returns early; on any error classification it runs
`ProcessResponseErrorUnlocked`; on success it submits `DoProcessResponse`,
clearing `request_pending_` itself only if that submission fails. -/
def PeerState.processResponse (s : PeerState) (k : ResponseKind) : PeerState :=
  if s.closed then { s with outstandingRpcs := s.outstandingRpcs - 1 }
  else
    match k with
    | .controllerError =>
      PeerState.processResponseErrorUnlocked
        { s with outstandingRpcs := s.outstandingRpcs - 1 }
    | .cannotPrepare =>
      PeerState.processResponseErrorUnlocked
        { s with outstandingRpcs := s.outstandingRpcs - 1 }
    | .tserverError =>
      PeerState.processResponseErrorUnlocked
        { s with outstandingRpcs := s.outstandingRpcs - 1 }
    | .success submitOk =>
      if submitOk then
        { s with outstandingRpcs := s.outstandingRpcs - 1,
                 queuedDoProcessResponse := s.queuedDoProcessResponse + 1 }
      else
        { s with outstandingRpcs := s.outstandingRpcs - 1,
                 requestPending := false }

/-- `Peer::DoProcessResponse` (`consensus_peers.cc:414-431`): reset the
failure counter and clear `request_pending_` (the possible immediate
re-entry into `SendNextRequest` is a separate step). -/
def PeerState.doProcessResponse (s : PeerState) : PeerState :=
  { s with failedAttempts := 0, requestPending := false,
           queuedDoProcessResponse := s.queuedDoProcessResponse - 1 }

/-- `Peer::ProcessTabletCopyResponse` (`consensus_peers.cc:442-471`), running
as the RPC callback: early return when closed, otherwise clear
`request_pending_`. -/
def PeerState.processTabletCopyResponse (s : PeerState) : PeerState :=
  if s.closed then { s with outstandingRpcs := s.outstandingRpcs - 1 }
  else
    { s with outstandingRpcs := s.outstandingRpcs - 1, requestPending := false }

/-- `Peer::Close` (`consensus_peers.cc:522-534`): a no-op when already
closed; otherwise mark closed and untrack the peer from the queue. -/
def PeerState.close (s : PeerState) : PeerState :=
  if s.closed then s
  else { s with closed := true, tracked := false }

/-- `Peer::~Peer` (`consensus_peers.cc:536-544`): calls `Close()` and then
stops the heartbeat timer. -/
def PeerState.destroy (s : PeerState) : PeerState :=
  { s.close with heartbeaterRunning := false }

/-- One interleaved step of the peer driver.  Response callbacks can only run
while an RPC is actually in flight, and `DoProcessResponse` holds
`CHECK(request_pending_)`. -/
inductive PeerStep : PeerState → PeerState → Prop where
  | signal (s : PeerState) (submitOk : Bool) : PeerStep s s
  | sendNext (s : PeerState) (env : SendEnv) : PeerStep s (s.sendNextRequest env)
  | response (s : PeerState) (k : ResponseKind) (h : 1 ≤ s.outstandingRpcs) :
      PeerStep s (s.processResponse k)
  | doResponse (s : PeerState) (h : 1 ≤ s.queuedDoProcessResponse) :
      PeerStep s s.doProcessResponse
  | tcResponse (s : PeerState) (h : 1 ≤ s.outstandingRpcs) :
      PeerStep s s.processTabletCopyResponse
  | close (s : PeerState) : PeerStep s s.close
  | destroy (s : PeerState) : PeerStep s s.destroy

/-- The peer states reachable from a freshly initialized peer. -/
inductive PeerReachable : PeerState → Prop where
  | init : PeerReachable Peer.init
  | step {s s2 : PeerState} : PeerReachable s → PeerStep s s2 → PeerReachable s2

/-- The at-most-one-outstanding-RPC invariant: no more than one RPC is in
flight, and while one is in flight `request_pending_` is set. -/
def atMostOneRpc (s : PeerState) : Prop :=
  s.outstandingRpcs + s.queuedDoProcessResponse ≤ 1 ∧
    (1 ≤ s.outstandingRpcs + s.queuedDoProcessResponse → s.requestPending = true)

end consensus

namespace tablet

/-- The gflags read by `FlushOpPerfImprovementPolicy::SetPerfImprovementForFlush`
(`tablet_replica_mm_ops.cc:66-84`), as exact rationals (the C++ uses
`double`; all the comparisons, differences and quotients involved are exact
over the rationals). -/
structure FlushFlags where
  flush_threshold_mb : ℚ
  flush_threshold_secs : ℚ
  flush_upper_bound_ms : ℚ
deriving DecidableEq, Repr

/-- The declared defaults: `flush_threshold_mb` 1024, `flush_threshold_secs`
120, `flush_upper_bound_ms` 3600000 (`tablet_replica_mm_ops.cc:66-84`). -/
def FlushFlags.defaults : FlushFlags :=
  { flush_threshold_mb := 1024, flush_threshold_secs := 2 * 60,
    flush_upper_bound_ms := 60 * 60 * 1000 }

/-- `FlushOpPerfImprovementPolicy::SetPerfImprovementForFlush`
(`tablet_replica_mm_ops.cc:110-136`): `ramAnchored` is
`stats->ram_anchored()` in bytes, `elapsed_ms` the time since the oldest
memstore data, and `perf0` the current (possibly unset) perf-improvement
score.  Over the threshold the score is `max(1.0, extra_mb)`; else, past the
time threshold, `min(1.0, max(elapsed/upper_bound, anchored/threshold))`;
else the score is left as it was (unset). -/
def setPerfImprovementForFlush (flags : FlushFlags) (ramAnchored : ℚ)
    (elapsed_ms : ℚ) (perf0 : Option ℚ) : Option ℚ :=
  let anchored_mb : ℚ := ramAnchored / (1024 * 1024)
  let threshold_mb := flags.flush_threshold_mb
  let upper_bound_ms := flags.flush_upper_bound_ms
  if threshold_mb ≤ anchored_mb then
    some (max 1 (anchored_mb - threshold_mb))
  else if flags.flush_threshold_secs * 1000 < elapsed_ms then
    some (min 1 (max (elapsed_ms / upper_bound_ms) (anchored_mb / threshold_mb)))
  else perf0

end tablet

namespace fs

/-- `ENOSPC` posix error code. -/
def ENOSPC : Nat := 28

/-- `Dir::RefreshMode` (`dir_manager.h` via `dir_manager.cc:257`). -/
inductive RefreshMode where
  | expiredOnly
  | always
deriving DecidableEq, Repr

/-- The cached available-space state of a `Dir`
(`dir_manager.cc:213-231,283-291`): `is_full_`, `available_bytes_` and
`last_space_check_` (a monotime instant, embedded as a natural number of
seconds). -/
structure DirSpaceState where
  is_full : Bool
  available_bytes : Int
  last_space_check : Nat
deriving DecidableEq, Repr

/-- The re-poll half of `Dir::RefreshAvailableSpace`
(`dir_manager.cc:269-293`): `poll` is the verdict of
`env_util::VerifySufficientDiskSpace` together with the available-byte count
it wrote.  An `IOError` whose posix code is `ENOSPC` is downgraded to OK with
`is_full_new = true`; any other failure is returned (prepended) without
touching the cached state; on OK the cached triple is overwritten. -/
def refreshPoll (now : Nat) (poll : Status × Int) (d : DirSpaceState) :
    Status × DirSpaceState :=
  let s0 := poll.1
  let r : Status × Bool :=
    match s0 with
    | .ioError m (some code) =>
      if code = ENOSPC then (.ok, true) else (.ioError m (some code), false)
    | s => (s, false)
  if !r.1.isOK then (r.1.prepend "Could not refresh fullness", d)
  else
    (.ok, { is_full := r.2, available_bytes := poll.2, last_space_check := now })

/-- `Dir::RefreshAvailableSpace` (`dir_manager.cc:257-299`): in
`EXPIRED_ONLY` mode a cached timestamp younger than the configured cache TTL
(`fs_data_dirs_available_space_cache_seconds`, passed as `ttl_secs`) returns
OK without re-polling; otherwise (and always in `ALWAYS` mode) the space is
re-polled. -/
def Dir.refreshAvailableSpace (ttl_secs : Nat) (mode : RefreshMode) (now : Nat)
    (poll : Status × Int) (d : DirSpaceState) : Status × DirSpaceState :=
  match mode with
  | .expiredOnly =>
    if now < d.last_space_check + ttl_secs then (.ok, d)
    else refreshPoll now poll d
  | .always => refreshPoll now poll d

/-- The `DirManager` state that `MarkDirFailed` touches
(`dir_manager.cc:936-957`): the number of directories (`dirs_.size()`), the
set of failed uuid indices (`failed_dirs_`) and the `dirs_failed` metric. -/
structure DirManagerState where
  numDirs : Nat
  failed_dirs : Finset Nat
  dirs_failed_metric : Nat
deriving DecidableEq

/-- `DirManager::MarkDirFailed` (`dir_manager.cc:936-957`): insert the index
into `failed_dirs_` if not already present; when the insertion makes every
dir failed, return `IOError` (with the index left in the set and the metric
not bumped); otherwise bump the metric.  An already-failed index is a no-op
returning OK. -/
def DirManager.markDirFailed (m : DirManagerState) (uuid_idx : Nat) :
    Status × DirManagerState :=
  if uuid_idx ∈ m.failed_dirs then (.ok, m)
  else
    let failed1 := insert uuid_idx m.failed_dirs
    if failed1.card = m.numDirs then
      (.ioError "All dirs have failed: " none, { m with failed_dirs := failed1 })
    else
      (.ok, { m with failed_dirs := failed1,
                     dirs_failed_metric := m.dirs_failed_metric + 1 })

end fs

/-- `BitmapSize(num_bits)` (`util/bitmap.h`, not under `src/`): the number of
bytes needed for the given number of bits. -/
def BitmapSize (n : Nat) : Nat := (n + 7) / 8

/-- Modelled from the spec: `SelectionVector::PadExtraBitsWithZeroes`
(declared in `rowblock.h`, which is not under `src/`): zero every bitmap bit
from position `n_rows` up to the end of the `n_bytes`-byte region the vector
currently uses.  The bitmap is embedded bit-addressed as a list of booleans
of length `8 * bytes_capacity`. -/
def padExtraBitsWithZeroes (n_rows n_bytes : Nat) (bm : List Bool) : List Bool :=
  bm.mapIdx (fun i b => if n_rows ≤ i ∧ i < 8 * n_bytes then false else b)

/-- State of a `SelectionVector` (`rowblock.cc:34-53`): the allocated
capacity in bytes, the current row count, the number of bytes currently in
use, and the bit-addressed bitmap (length `8 * bytes_capacity`). -/
structure SelectionVector where
  bytes_capacity : Nat
  n_rows : Nat
  n_bytes : Nat
  bitmap : List Bool
deriving DecidableEq, Repr

/-- `SelectionVector::SelectionVector(row_capacity)` (`rowblock.cc:34-41`):
the bitmap allocation is uninitialized (`new uint8_t[n_bytes_]`), so its
initial contents are an arbitrary `uninit` list; only the bits at and past
`row_capacity` are zeroed by `PadExtraBitsWithZeroes`. -/
def SelectionVector.construct (row_capacity : Nat) (uninit : List Bool) :
    SelectionVector :=
  let bc := BitmapSize row_capacity
  { bytes_capacity := bc, n_rows := row_capacity, n_bytes := bc,
    bitmap := padExtraBitsWithZeroes row_capacity bc uninit }

/-- `SelectionVector::Resize` (`rowblock.cc:43-53`): a no-op when the row
count is unchanged; otherwise shrink or grow the in-use byte region (the
caller guarantees `BitmapSize n_rows <= bytes_capacity_`) and zero the pad
bits of the new region. -/
def SelectionVector.resize (sv : SelectionVector) (n_rows : Nat) :
    SelectionVector :=
  if n_rows = sv.n_rows then sv
  else
    let new_bytes := BitmapSize n_rows
    { sv with n_rows := n_rows, n_bytes := new_bytes,
              bitmap := padExtraBitsWithZeroes n_rows new_bytes sv.bitmap }

/-- `SelectionVector::CountSelected` (`rowblock.cc:119-121`):
`Bits::Count(&bitmap_[0], n_bytes_)` counts the set bits of all `n_bytes_`
whole bytes, i.e. of the first `8 * n_bytes` bit positions. -/
def SelectionVector.countSelected (sv : SelectionVector) : Nat :=
  (sv.bitmap.take (8 * sv.n_bytes)).count true

/-- `SelectionVector::AnySelected` (`rowblock.cc:123-144`): scans the
`n_bytes_` bytes word-by-word then byte-by-byte for any nonzero content,
i.e. reports whether any of the first `8 * n_bytes` bit positions is set. -/
def SelectionVector.anySelected (sv : SelectionVector) : Bool :=
  (sv.bitmap.take (8 * sv.n_bytes)).any id

end kudu

/-! ## Theorems -/

open kudu kudu.cfile kudu.consensus kudu.tablet kudu.fs

theorem findIdx_none_of_forall {α : Type} {p : α → Bool} :
    ∀ (l : List α), (∀ x ∈ l, p x = false) → l.findIdx? p = none := by
  intro l
  induction l with
  | nil => intro _; rfl
  | cons x xs ih =>
    intro h
    rw [List.findIdx?_cons, h x (List.mem_cons_self x xs)]
    simp only [Bool.false_eq_true, if_false]
    rw [List.findIdx?_succ, ih (fun y hy => h y (List.mem_cons_of_mem x hy))]
    rfl

/-- C4: for a flush-op stats update with anchored bytes `ramAnchored`
(`A = ramAnchored / 2^20` MB), flush threshold `T` MB, elapsed time `E` ms
and upper bound `U` ms: when `A >= T` the perf-improvement score becomes
`max(1.0, A - T)`; when `A < T` but `E` exceeds `flush_threshold_secs`
(in ms), the score becomes `min(1.0, max(E/U, A/T))`; otherwise the score is
left unchanged (unset). -/
theorem C4_flush_perf_policy (flags : FlushFlags) (ramAnchored elapsed_ms : ℚ)
    (perf0 : Option ℚ) :
    (flags.flush_threshold_mb ≤ ramAnchored / (1024 * 1024) →
      setPerfImprovementForFlush flags ramAnchored elapsed_ms perf0 =
        some (max 1 (ramAnchored / (1024 * 1024) - flags.flush_threshold_mb))) ∧
    (ramAnchored / (1024 * 1024) < flags.flush_threshold_mb →
      flags.flush_threshold_secs * 1000 < elapsed_ms →
      setPerfImprovementForFlush flags ramAnchored elapsed_ms perf0 =
        some (min 1 (max (elapsed_ms / flags.flush_upper_bound_ms)
          (ramAnchored / (1024 * 1024) / flags.flush_threshold_mb)))) ∧
    (ramAnchored / (1024 * 1024) < flags.flush_threshold_mb →
      ¬(flags.flush_threshold_secs * 1000 < elapsed_ms) →
      setPerfImprovementForFlush flags ramAnchored elapsed_ms perf0 = perf0) := by
  refine ⟨?_, ?_, ?_⟩ <;> intro h1
  · simp only [setPerfImprovementForFlush, if_pos h1]
  · intro h2
    simp only [setPerfImprovementForFlush, if_neg (not_le.mpr h1), if_pos h2]
  · intro h2
    simp only [setPerfImprovementForFlush, if_neg (not_le.mpr h1), if_neg h2]

theorem C4_flush_perf_policy_witness :
    ((1024 : ℚ) ≤ (2147483648 : ℚ) / (1024 * 1024)) ∧
    setPerfImprovementForFlush FlushFlags.defaults 2147483648 0 none =
      some (max 1 ((2147483648 : ℚ) / (1024 * 1024) - 1024)) :=
  ⟨by norm_num,
   (C4_flush_perf_policy FlushFlags.defaults 2147483648 0 none).1 (by norm_num [FlushFlags.defaults])⟩

/-- C6: `Dir::RefreshAvailableSpace` in `EXPIRED_ONLY` mode with a cached
timestamp younger than the TTL returns OK and leaves the cached state
unchanged; a re-poll failing with an `IOError` whose posix code is `ENOSPC`
sets `is_full` and returns OK (so the caller does not mark the dir failed,
since failure marking is driven by non-OK statuses); any other error from the
poll is returned non-OK with the cached state untouched. -/
theorem C6_refresh_available_space (ttl now : Nat) (mode : RefreshMode)
    (poll : Status × Int) (d : DirSpaceState) :
    (now < d.last_space_check + ttl →
      Dir.refreshAvailableSpace ttl .expiredOnly now poll d = (.ok, d)) ∧
    (∀ msg avail, poll = (.ioError msg (some ENOSPC), avail) →
      (mode = .always ∨ ¬now < d.last_space_check + ttl) →
      Dir.refreshAvailableSpace ttl mode now poll d =
        (.ok, { is_full := true, available_bytes := avail, last_space_check := now })) ∧
    (∀ msg code, poll.1 = .ioError msg code → code ≠ some ENOSPC →
      (mode = .always ∨ ¬now < d.last_space_check + ttl) →
      Dir.refreshAvailableSpace ttl mode now poll d =
        ((Status.ioError msg code).prepend "Could not refresh fullness", d) ∧
      (Dir.refreshAvailableSpace ttl mode now poll d).1.isOK = false) := by
  refine ⟨?_, ?_, ?_⟩
  · intro h
    simp only [Dir.refreshAvailableSpace, if_pos h]
  · intro msg avail hp hm
    subst hp
    have hpoll : refreshPoll now (Status.ioError msg (some ENOSPC), avail) d =
        (.ok, { is_full := true, available_bytes := avail, last_space_check := now }) := by
      simp [refreshPoll, Status.isOK]
    rcases hm with hm | hm
    · subst hm; simpa [Dir.refreshAvailableSpace] using hpoll
    · simp only [Dir.refreshAvailableSpace]
      cases mode with
      | expiredOnly => rw [if_neg hm]; exact hpoll
      | always => exact hpoll
  · intro msg code hp hc hm
    have hcode : ¬∃ c, code = some c ∧ c = ENOSPC := by
      rintro ⟨c, rfl, rfl⟩; exact hc rfl
    have hpoll : refreshPoll now poll d =
        ((Status.ioError msg code).prepend "Could not refresh fullness", d) := by
      cases code with
      | none => simp [refreshPoll, hp, Status.isOK, Status.prepend]
      | some c =>
        have : c ≠ ENOSPC := fun h => hcode ⟨c, rfl, h⟩
        simp [refreshPoll, hp, this, Status.isOK, Status.prepend]
    have hres : Dir.refreshAvailableSpace ttl mode now poll d =
        ((Status.ioError msg code).prepend "Could not refresh fullness", d) := by
      cases mode with
      | expiredOnly =>
        rcases hm with hm | hm
        · exact absurd hm (by simp)
        · simp only [Dir.refreshAvailableSpace]; rw [if_neg hm]; exact hpoll
      | always => exact hpoll
    exact ⟨hres, by rw [hres]; simp [Status.prepend, Status.isOK]⟩

theorem C6_refresh_available_space_witness :
    (5 < (10 : Nat) + 100) ∧
    Dir.refreshAvailableSpace 100 .expiredOnly 5 (.ok, 7)
      { is_full := false, available_bytes := 3, last_space_check := 10 } =
      (.ok, { is_full := false, available_bytes := 3, last_space_check := 10 }) :=
  ⟨by norm_num,
   (C6_refresh_available_space 100 5 .expiredOnly (.ok, 7)
     { is_full := false, available_bytes := 3, last_space_check := 10 }).1 (by norm_num)⟩

/-- C5 counterexample: the claim states that when marking a healthy dir
failed would make every dir failed, `MarkDirFailed` returns IOError without
recording the failure (the failed set unchanged).  On the code
(`dir_manager.cc:941-947`) `InsertIfNotPresent` runs before the
all-dirs-failed check, so with 2 dirs of which dir 0 is already failed,
`MarkDirFailed(1)` returns IOError and dir 1 IS in the failed set
afterwards. -/
theorem C5_mark_dir_failed_counterexample :
    (DirManager.markDirFailed ⟨2, {0}, 1⟩ 1).1 =
        Status.ioError "All dirs have failed: " none ∧
      1 ∉ (⟨2, {0}, 1⟩ : DirManagerState).failed_dirs ∧
      1 ∈ (DirManager.markDirFailed ⟨2, {0}, 1⟩ 1).2.failed_dirs := by
  refine ⟨by decide, by decide, by decide⟩

/-- C5 (amended): `MarkDirFailed` on an already-failed uuid index is
idempotent (OK, state unchanged); on a healthy index whose failure makes
every dir failed it returns IOError with the index inserted into the failed
set (and the metric not bumped); on a healthy index otherwise it records the
failure, bumps the metric and returns OK. -/
theorem C5_mark_dir_failed (m : DirManagerState) (i : Nat) (h2 : 2 ≤ m.numDirs) :
    (i ∈ m.failed_dirs → DirManager.markDirFailed m i = (.ok, m)) ∧
    (i ∉ m.failed_dirs → (insert i m.failed_dirs).card = m.numDirs →
      DirManager.markDirFailed m i =
        (Status.ioError "All dirs have failed: " none,
         { m with failed_dirs := insert i m.failed_dirs })) ∧
    (i ∉ m.failed_dirs → (insert i m.failed_dirs).card ≠ m.numDirs →
      DirManager.markDirFailed m i =
        (.ok, { m with failed_dirs := insert i m.failed_dirs,
                       dirs_failed_metric := m.dirs_failed_metric + 1 })) := by
  refine ⟨?_, ?_, ?_⟩
  · intro h
    simp only [DirManager.markDirFailed, if_pos h]
  · intro h hall
    simp only [DirManager.markDirFailed, if_neg h, if_pos hall]
  · intro h hall
    simp only [DirManager.markDirFailed, if_neg h, if_neg hall]

theorem C5_mark_dir_failed_witness :
    2 ≤ (⟨2, {0}, 1⟩ : DirManagerState).numDirs ∧
      (0 : Nat) ∈ (⟨2, {0}, 1⟩ : DirManagerState).failed_dirs ∧
      DirManager.markDirFailed ⟨2, {0}, 1⟩ 0 = (.ok, ⟨2, {0}, 1⟩) :=
  ⟨by decide, by decide,
   (C5_mark_dir_failed ⟨2, {0}, 1⟩ 0 (by decide)).1 (by decide)⟩

/-- C8: `BinaryDictBlockDecoder::ParseHeader` returns Corruption when the
block is shorter than the minimum header size, and Corruption when the fixed
32-bit mode field is neither codeword mode (0) nor plain mode (1); in both
cases the decoder's parsed flag is unchanged (it does not become parsed).
The verdict of the sub-decoder's own header parse is universally
quantified. -/
theorem C8_parse_header_corruption
    (subParse : DictEncodingMode → List Nat → Status)
    (d : BinaryDictBlockDecoder) :
    (d.data.length < kMinHeaderSize →
      (d.parseHeader subParse).1 = Status.corruption "not enough bytes for header" ∧
      (d.parseHeader subParse).2.parsed = d.parsed) ∧
    (¬d.data.length < kMinHeaderSize →
      decodeFixed32 d.data ≠ 0 → decodeFixed32 d.data ≠ 1 →
      (d.parseHeader subParse).1 = Status.corruption "header Mode information corrupted" ∧
      (d.parseHeader subParse).2.parsed = d.parsed) := by
  constructor
  · intro h
    simp only [BinaryDictBlockDecoder.parseHeader, if_pos h]
    exact ⟨trivial, trivial⟩
  · intro h h0 h1
    have hcast : tightEnumTestCastDictMode (decodeFixed32 d.data) = none := by
      simp only [tightEnumTestCastDictMode, if_neg h0, if_neg h1]
    simp only [BinaryDictBlockDecoder.parseHeader, if_neg h, hcast]
    exact ⟨trivial, trivial⟩

theorem C8_parse_header_corruption_witness :
    (List.length [(0 : Nat), 0] < kMinHeaderSize) ∧
    ((⟨[0, 0], false, .kCodeWordMode⟩ : BinaryDictBlockDecoder).parseHeader
        (fun _ _ => .ok)).1 = Status.corruption "not enough bytes for header" ∧
    ((⟨[0, 0], false, .kCodeWordMode⟩ : BinaryDictBlockDecoder).parseHeader
        (fun _ _ => .ok)).2.parsed = false :=
  ⟨by decide,
   (C8_parse_header_corruption (fun _ _ => .ok) ⟨[0, 0], false, .kCodeWordMode⟩).1 (by decide)⟩

/-- C3 counterexample: the claim states that a seek past the largest
dictionary key leaves the data decoder one-past-the-end of the block.  On
the code (`binary_dict_block.cc:252`) the data decoder is sought to
`Count() - 1`: with a 2-element data block and dictionary `["a"]`, seeking
`"b"` returns NotFound with the current index 1, not 2. -/
theorem C3_seek_past_dictionary_counterexample :
    (seekAtOrAfterValueCodeWord [[97]] ⟨[0, 0], 0⟩ [98]).1 =
        Status.notFound "after last key in block" ∧
      (seekAtOrAfterValueCodeWord [[97]] ⟨[0, 0], 0⟩ [98]).2.1.count = 2 ∧
      (seekAtOrAfterValueCodeWord [[97]] ⟨[0, 0], 0⟩ [98]).2.1.curIdx = 1 ∧
      (seekAtOrAfterValueCodeWord [[97]] ⟨[0, 0], 0⟩ [98]).2.1.curIdx ≠
        (seekAtOrAfterValueCodeWord [[97]] ⟨[0, 0], 0⟩ [98]).2.1.count := by
  refine ⟨by decide, by decide, by decide, by decide⟩

/-- C3 (amended): in codeword mode, `SeekAtOrAfterValue` with a value
strictly greater than every key in the file-level dictionary seeks the data
decoder to the last position in the block (`Count() - 1`) and returns the
dictionary decoder's non-OK NotFound status. -/
theorem C3_seek_past_dictionary (dictKeys : List (List Nat)) (dd : DataDecoderState)
    (v : List Nat) (hgt : ∀ k ∈ dictKeys, sliceLt k v = true) (hc : 0 < dd.count) :
    seekAtOrAfterValueCodeWord dictKeys dd v =
      (Status.notFound "after last key in block",
       { dd with curIdx := dd.count - 1 }, false) ∧
    (seekAtOrAfterValueCodeWord dictKeys dd v).1.isOK = false := by
  have hfind : dictKeys.findIdx? (fun k => sliceLe v k) = none :=
    findIdx_none_of_forall dictKeys
      (fun k hk => by simp [sliceLe, hgt k hk])
  have hdict : dictSeekAtOrAfter dictKeys v =
      (Status.notFound "after last key in block", dictKeys.length, false) := by
    simp only [dictSeekAtOrAfter, hfind]
  have hmain : seekAtOrAfterValueCodeWord dictKeys dd v =
      (Status.notFound "after last key in block",
       { dd with curIdx := dd.count - 1 }, false) := by
    simp only [seekAtOrAfterValueCodeWord, hdict, Status.isOK, Bool.false_eq_true,
      if_false, DataDecoderState.seekToPositionInBlock]
  exact ⟨hmain, by rw [hmain]; rfl⟩

theorem C3_seek_past_dictionary_witness :
    (∀ k ∈ [[97]], sliceLt k [98] = true) ∧
    0 < (⟨[0, 0], 0⟩ : DataDecoderState).count ∧
    seekAtOrAfterValueCodeWord [[97]] ⟨[0, 0], 0⟩ [98] =
      (Status.notFound "after last key in block",
       ⟨[0, 0], 1⟩, false) :=
  ⟨by decide, by decide,
   (C3_seek_past_dictionary [[97]] ⟨[0, 0], 0⟩ [98] (by decide) (by decide)).1⟩

/-- C7 counterexample: the claim states that `Peer::Close` stops the peer's
heartbeat timer.  On the code (`consensus_peers.cc:522-534`) `Close()` only
marks the peer closed and untracks it; the heartbeater is stopped by the
destructor (`consensus_peers.cc:536-544`).  From an open state with the
heartbeater running, `close` leaves the heartbeater running. -/
theorem C7_close_counterexample :
    (PeerState.close ⟨false, false, 0, false, true, true, 0, 0⟩).closed = true ∧
    (PeerState.close ⟨false, false, 0, false, true, true, 0, 0⟩).heartbeaterRunning
      = true := by
  refine ⟨by decide, by decide⟩

/-- C7 (amended): `Peer::Close` is idempotent, marks the peer closed and
untracks it from the queue, but leaves the heartbeat timer as it was; the
heartbeat timer is stopped by the destructor, which first calls `Close`.
Once closed, no step of the peer driver ever un-closes the peer. -/
theorem C7_close_idempotent_terminal (s s2 : PeerState) (st : PeerStep s s2) :
    s.close.close = s.close ∧
    s.close.closed = true ∧
    (s.closed = false → s.close.tracked = false) ∧
    s.close.heartbeaterRunning = s.heartbeaterRunning ∧
    s.destroy = { s.close with heartbeaterRunning := false } ∧
    (s.closed = true → s2.closed = true) := by
  refine ⟨?_, ?_, ?_, ?_, rfl, ?_⟩
  · by_cases hc : s.closed <;> simp [PeerState.close, hc]
  · by_cases hc : s.closed <;> simp [PeerState.close, hc]
  · intro ho; simp [PeerState.close, ho]
  · by_cases hc : s.closed <;> simp [PeerState.close, hc]
  · intro hclosed
    cases st with
    | signal submitOk => exact hclosed
    | sendNext env => simp [PeerState.sendNextRequest, hclosed]
    | response k h => simp [PeerState.processResponse, hclosed]
    | doResponse h => exact hclosed
    | tcResponse h =>
      simp [PeerState.processTabletCopyResponse, hclosed]
    | close => simp [PeerState.close, hclosed]
    | destroy =>
      simp [PeerState.destroy, PeerState.close, hclosed]

theorem C7_close_idempotent_terminal_witness :
    Peer.init.close.close = Peer.init.close ∧ Peer.init.close.closed = true :=
  ⟨(C7_close_idempotent_terminal Peer.init Peer.init.close
      (PeerStep.close Peer.init)).1,
   (C7_close_idempotent_terminal Peer.init Peer.init.close
      (PeerStep.close Peer.init)).2.1⟩

theorem mode_plain_preserved_by_op (b : BinaryDictBlockBuilder) (op : BuilderOp)
    (h : b.mode = .kPlainBinaryMode) :
    (b.applyOp op).mode = .kPlainBinaryMode := by
  cases op with
  | add vs =>
    simp only [BinaryDictBlockBuilder.applyOp, BinaryDictBlockBuilder.add, h]
    cases hdb : b.data_builder with
    | plain pb => simpa using h
    | bshuf db => simpa using h
  | finish =>
    simpa [BinaryDictBlockBuilder.applyOp, BinaryDictBlockBuilder.finish] using h
  | reset =>
    have hcond : ¬(b.mode = DictEncodingMode.kCodeWordMode ∧
        b.dict_block.isBlockFull = true) := by
      rintro ⟨hm, -⟩
      rw [h] at hm
      exact DictEncodingMode.noConfusion hm
    simp only [BinaryDictBlockBuilder.applyOp, BinaryDictBlockBuilder.resetBuilder]
    rw [if_neg (by simpa using hcond)]
    simpa using h

theorem mode_plain_preserved_by_ops (b : BinaryDictBlockBuilder)
    (ops : List BuilderOp) (h : b.mode = .kPlainBinaryMode) :
    (b.applyOps ops).mode = .kPlainBinaryMode := by
  induction ops generalizing b with
  | nil => exact h
  | cons op rest ih =>
    exact ih (b.applyOp op) (mode_plain_preserved_by_op b op h)

/-- C1: once the file-level dictionary block reports full, the next `Reset`
switches the builder from codeword to plain-binary mode; from then on every
sequence of `Add`/`Finish`/`Reset` calls leaves it in plain-binary mode (it
never returns to codeword mode), every block finished later carries the
plain-binary header, and in general each finished block's 32-bit header
records the mode the builder was in when the block was built. -/
theorem C1_plain_mode_permanent (b : BinaryDictBlockBuilder)
    (ops : List BuilderOp) :
    (b.mode = .kCodeWordMode → b.dict_block.isBlockFull = true →
      b.resetBuilder.mode = .kPlainBinaryMode) ∧
    (b.mode = .kPlainBinaryMode → (b.applyOps ops).mode = .kPlainBinaryMode) ∧
    (b.finish.1.1 = b.mode.toFixed32) ∧
    (b.mode = .kPlainBinaryMode →
      ((b.applyOps ops).finish).1.1 = DictEncodingMode.kPlainBinaryMode.toFixed32) := by
  refine ⟨?_, ?_, rfl, ?_⟩
  · intro hm hf
    simp only [BinaryDictBlockBuilder.resetBuilder]
    rw [if_pos ⟨hm, hf⟩]
  · exact mode_plain_preserved_by_ops b ops
  · intro h
    have hm := mode_plain_preserved_by_ops b ops h
    simp only [BinaryDictBlockBuilder.finish, hm]

theorem C1_plain_mode_permanent_witness :
    ((BinaryDictBlockBuilder.mkNew 4 8).mode = DictEncodingMode.kCodeWordMode) ∧
    ((BinaryDictBlockBuilder.mkNew 4 8).applyOps
        [BuilderOp.add ["aa"], BuilderOp.finish, BuilderOp.reset]).mode =
      DictEncodingMode.kPlainBinaryMode ∧
    (((BinaryDictBlockBuilder.mkNew 4 8).applyOps
        [BuilderOp.add ["aa"], BuilderOp.finish, BuilderOp.reset]).applyOps
        [BuilderOp.add ["bb"], BuilderOp.finish]).mode =
      DictEncodingMode.kPlainBinaryMode :=
  ⟨by decide, by decide,
   ((C1_plain_mode_permanent
      ((BinaryDictBlockBuilder.mkNew 4 8).applyOps
        [BuilderOp.add ["aa"], BuilderOp.finish, BuilderOp.reset])
      [BuilderOp.add ["bb"], BuilderOp.finish]).2.1 (by decide))⟩

theorem atMostOneRpc_step {s s2 : PeerState} (hst : PeerStep s s2)
    (hinv : atMostOneRpc s) : atMostOneRpc s2 := by
  obtain ⟨h1, h2⟩ := hinv
  cases hst with
  | signal submitOk => exact ⟨h1, h2⟩
  | sendNext env =>
    unfold PeerState.sendNextRequest
    split_ifs with hc hp hfa hq hpx hntc hflag htc hops
    · exact ⟨h1, h2⟩
    · exact ⟨h1, h2⟩
    · exact ⟨h1, h2⟩
    · exact ⟨h1, h2⟩
    · exact ⟨h1, h2⟩
    · exact ⟨h1, h2⟩
    · exact ⟨h1, h2⟩
    · have h0 : s.outstandingRpcs + s.queuedDoProcessResponse = 0 := by
        by_contra hne
        exact hp (h2 (Nat.one_le_iff_ne_zero.mpr hne))
      refine ⟨?_, fun _ => rfl⟩
      show s.outstandingRpcs + 1 + s.queuedDoProcessResponse ≤ 1
      omega
    · exact ⟨h1, h2⟩
    · have h0 : s.outstandingRpcs + s.queuedDoProcessResponse = 0 := by
        by_contra hne
        exact hp (h2 (Nat.one_le_iff_ne_zero.mpr hne))
      refine ⟨?_, fun _ => rfl⟩
      show s.outstandingRpcs + 1 + s.queuedDoProcessResponse ≤ 1
      omega
  | response k h =>
    have hout : s.outstandingRpcs = 1 := by omega
    have hq : s.queuedDoProcessResponse = 0 := by omega
    have hpend : s.requestPending = true := h2 (by omega)
    unfold PeerState.processResponse
    split_ifs with hc
    · exact ⟨by simp [hout, hq], by simp [hout, hq]⟩
    · cases k with
      | controllerError =>
        exact ⟨by simp [PeerState.processResponseErrorUnlocked, hout, hq],
               by simp [PeerState.processResponseErrorUnlocked, hout, hq]⟩
      | cannotPrepare =>
        exact ⟨by simp [PeerState.processResponseErrorUnlocked, hout, hq],
               by simp [PeerState.processResponseErrorUnlocked, hout, hq]⟩
      | tserverError =>
        exact ⟨by simp [PeerState.processResponseErrorUnlocked, hout, hq],
               by simp [PeerState.processResponseErrorUnlocked, hout, hq]⟩
      | success submitOk =>
        cases submitOk with
        | true => exact ⟨by simp [hout, hq], fun _ => hpend⟩
        | false => exact ⟨by simp [hout, hq], by simp [hout, hq]⟩
  | doResponse h =>
    have hq1 : s.queuedDoProcessResponse = 1 := by omega
    have hout : s.outstandingRpcs = 0 := by omega
    exact ⟨by simp [PeerState.doProcessResponse, hout, hq1],
           by simp [PeerState.doProcessResponse, hout, hq1]⟩
  | tcResponse h =>
    have hout : s.outstandingRpcs = 1 := by omega
    have hq : s.queuedDoProcessResponse = 0 := by omega
    unfold PeerState.processTabletCopyResponse
    split_ifs with hc
    · exact ⟨by simp [hout, hq], by simp [hout, hq]⟩
    · exact ⟨by simp [hout, hq], by simp [hout, hq]⟩
  | close =>
    by_cases hc : s.closed <;> simp [PeerState.close, hc] <;> exact ⟨h1, h2⟩
  | destroy =>
    by_cases hc : s.closed <;>
      simp [PeerState.destroy, PeerState.close, hc] <;> exact ⟨h1, h2⟩

theorem peer_reachable_atMostOneRpc (s : PeerState) (h : PeerReachable s) :
    atMostOneRpc s := by
  induction h with
  | init => exact ⟨by decide, by decide⟩
  | step _ hst ih => exact atMostOneRpc_step hst ih

/-- C2: at most one consensus RPC is outstanding per peer at any time.
`SignalRequest` returns an IllegalState error without submitting work when
the peer is closed, and returns OK without submitting work when a request is
already pending; `SendNextRequest` returns without sending when `closed_` or
`request_pending_` is set; whenever `SendNextRequest` issues an RPC it has
set `request_pending_` first; `request_pending_` is never cleared by
`SendNextRequest`, `Close` or the destructor (only response processing
clears it); and on every reachable peer state the number of in-flight RPCs
(plus the queued response hand-off task) is at most one and implies
`request_pending_`. -/
theorem C2_at_most_one_outstanding_rpc :
    (∀ (s : PeerState) (submitOk : Bool), s.closed = true →
      s.signalRequest submitOk = (Status.illegalState "peer closed", false)) ∧
    (∀ (s : PeerState) (submitOk : Bool), s.closed = false →
      s.requestPending = true → s.signalRequest submitOk = (Status.ok, false)) ∧
    (∀ (s : PeerState) (env : SendEnv), s.closed = true →
      s.sendNextRequest env = s) ∧
    (∀ (s : PeerState) (env : SendEnv), s.requestPending = true →
      s.sendNextRequest env = s) ∧
    (∀ (s : PeerState) (env : SendEnv),
      (s.sendNextRequest env).outstandingRpcs ≠ s.outstandingRpcs →
      (s.sendNextRequest env).requestPending = true) ∧
    (∀ s : PeerState, s.close.requestPending = s.requestPending ∧
      s.destroy.requestPending = s.requestPending) ∧
    (∀ s : PeerState, PeerReachable s → atMostOneRpc s) := by
  refine ⟨?_, ?_, ?_, ?_, ?_, ?_, peer_reachable_atMostOneRpc⟩
  · intro s submitOk h
    simp [PeerState.signalRequest, h]
  · intro s submitOk hc hp
    simp [PeerState.signalRequest, hc, hp]
  · intro s env h
    simp [PeerState.sendNextRequest, h]
  · intro s env hp
    by_cases hc : s.closed <;> simp [PeerState.sendNextRequest, hc, hp]
  · intro s env hne
    revert hne
    unfold PeerState.sendNextRequest
    split_ifs <;> intro hne
    · exact absurd rfl hne
    · exact absurd rfl hne
    · exact absurd rfl hne
    · exact absurd rfl hne
    · exact absurd rfl hne
    · exact absurd rfl hne
    · exact absurd rfl hne
    · rfl
    · exact absurd rfl hne
    · rfl
  · intro s
    by_cases hc : s.closed <;>
      simp [PeerState.close, PeerState.destroy, hc]

theorem C2_at_most_one_outstanding_rpc_witness :
    ((⟨true, false, 0, false, true, true, 0, 0⟩ : PeerState).closed = true) ∧
    (⟨true, false, 0, false, true, true, 0, 0⟩ : PeerState).signalRequest true =
      (Status.illegalState "peer closed", false) ∧
    atMostOneRpc Peer.init :=
  ⟨rfl,
   C2_at_most_one_outstanding_rpc.1 ⟨true, false, 0, false, true, true, 0, 0⟩ true rfl,
   C2_at_most_one_outstanding_rpc.2.2.2.2.2.2 Peer.init PeerReachable.init⟩

theorem get?_mapIdx_bool (f : Nat → Bool → Bool) (l : List Bool) (i : Nat) :
    (l.mapIdx f).get? i = (l.get? i).map (f i) := by
  by_cases h : i < l.length
  · rw [List.get?_eq_get (show i < (l.mapIdx f).length by
        simpa [List.length_mapIdx] using h),
      List.get?_eq_get h]
    simp [List.get_mapIdx]
  · rw [List.get?_len_le (by simpa [List.length_mapIdx] using not_lt.mp h),
      List.get?_len_le (not_lt.mp h)]
    rfl

theorem padExtra_getD (n nb : Nat) (bm : List Bool) (i : Nat) :
    (padExtraBitsWithZeroes n nb bm).getD i false =
      if n ≤ i ∧ i < 8 * nb then false else bm.getD i false := by
  show ((bm.mapIdx fun j b => if n ≤ j ∧ j < 8 * nb then false else b).get? i).getD false = _
  rw [get?_mapIdx_bool]
  cases hbm : bm.get? i with
  | none =>
    rw [List.get?_eq_getElem?] at hbm
    by_cases hc : n ≤ i ∧ i < 8 * nb <;> simp [hc, List.getD, hbm]
  | some b =>
    rw [List.get?_eq_getElem?] at hbm
    by_cases hc : n ≤ i ∧ i < 8 * nb <;> simp [hc, List.getD, hbm]

theorem count_le_of_tail_false :
    ∀ (l : List Bool) (n : Nat), (∀ i, n ≤ i → l.getD i false = false) →
      l.count true ≤ n := by
  intro l
  induction l with
  | nil => intro n _; simp
  | cons b t ih =>
    intro n h
    cases n with
    | zero =>
      have hb : b = false := h 0 (Nat.le_refl 0)
      have ht : t.count true ≤ 0 := by
        refine ih 0 (fun i _ => ?_)
        exact h (i + 1) (Nat.zero_le _)
      subst hb
      simpa [List.count_cons] using ht
    | succ m =>
      have ht : t.count true ≤ m := by
        refine ih m (fun i hi => ?_)
        exact h (i + 1) (Nat.succ_le_succ hi)
      have hstep : (b :: t).count true ≤ t.count true + 1 := by
        simp only [List.count_cons]
        split <;> omega
      omega

/-- C10 counterexample: the claim states that after `Resize(n)` every bitmap
bit at a position at or past `n` is zero.  The constructor does not zero the
(uninitialized) allocation and `Resize` pads only up to the end of the new
`n_bytes_` region (`rowblock.cc:34-53`), so a vector of capacity 16 whose
allocation came up all-ones, resized to 3 rows, still has bit 9 set even
though 3 <= 9.  (The claim's consequences about `CountSelected` and
`AnySelected` do hold; see the amended theorem.) -/
theorem C10_selection_vector_counterexample :
    ((SelectionVector.construct 16 (List.replicate 16 true)).resize 3).n_rows = 3 ∧
    ((SelectionVector.construct 16 (List.replicate 16 true)).resize 3).bitmap.getD 9
        false = true := by
  refine ⟨by decide, by decide⟩

theorem getD_eq_of_get? {l : List Bool} {i : Nat} {b : Bool}
    (h : l.get? i = some b) : l.getD i false = b := by
  have h2 := h
  rw [List.get?_eq_getElem?] at h2
  simp [List.getD, h2]

theorem getD_eq_false_of_len_le {l : List Bool} {i : Nat} (h : l.length ≤ i) :
    l.getD i false = false := by
  have h2 := List.get?_len_le h
  rw [List.get?_eq_getElem?] at h2
  simp [List.getD, h2]

theorem getD_take_of_lt {l : List Bool} {k i : Nat} (h : i < k) :
    (l.take k).getD i false = l.getD i false := by
  have h2 : (l.take k).get? i = l.get? i := List.get?_take h
  rw [List.get?_eq_getElem?, List.get?_eq_getElem?] at h2
  simp [List.getD, h2]

/-- C10 (amended): after construction with capacity `n` every bitmap bit at a
position at or past `n` is zero, and after `Resize(n)` every bit at or past
`n` *within the `n_bytes` region the vector now uses* is zero (bytes beyond
that region may retain stale bits, as the counterexample shows); under that
padding invariant `CountSelected()` never exceeds `nrows()` and
`AnySelected()` returns true only if some row with index below `nrows()` is
selected, even though both scan all `n_bytes_` whole bytes. -/
theorem C10_selection_vector_padding (n : Nat) (uninit : List Bool)
    (sv : SelectionVector)
    (hlen : uninit.length = 8 * BitmapSize n)
    (hpad : ∀ i, sv.n_rows ≤ i → i < 8 * sv.n_bytes → sv.bitmap.getD i false = false) :
    (∀ i, n ≤ i → (SelectionVector.construct n uninit).bitmap.getD i false = false) ∧
    (∀ m i, m ≤ i → i < 8 * (sv.resize m).n_bytes →
      (sv.resize m).bitmap.getD i false = false) ∧
    sv.countSelected ≤ sv.n_rows ∧
    (sv.anySelected = true → ∃ i, i < sv.n_rows ∧ sv.bitmap.getD i false = true) := by
  refine ⟨?_, ?_, ?_, ?_⟩
  · intro i hi
    show (padExtraBitsWithZeroes n (BitmapSize n) uninit).getD i false = false
    rw [padExtra_getD]
    by_cases hc : i < 8 * BitmapSize n
    · rw [if_pos ⟨hi, hc⟩]
    · rw [if_neg (fun hp => hc hp.2)]
      exact getD_eq_false_of_len_le (by omega)
  · intro m i him hilt
    by_cases hm : m = sv.n_rows
    · have hres : sv.resize m = sv := by
        unfold SelectionVector.resize
        rw [if_pos hm]
      rw [hres] at hilt ⊢
      exact hpad i (hm ▸ him) hilt
    · have hres : sv.resize m =
          { sv with n_rows := m, n_bytes := BitmapSize m,
                    bitmap := padExtraBitsWithZeroes m (BitmapSize m) sv.bitmap } := by
        unfold SelectionVector.resize
        rw [if_neg hm]
      rw [hres] at hilt ⊢
      simp only at hilt
      rw [padExtra_getD, if_pos ⟨him, hilt⟩]
  · refine count_le_of_tail_false _ sv.n_rows (fun i hi => ?_)
    by_cases hc : i < 8 * sv.n_bytes
    · rw [getD_take_of_lt hc]
      exact hpad i hi hc
    · refine getD_eq_false_of_len_le ?_
      have := List.length_take_le (8 * sv.n_bytes) sv.bitmap
      omega
  · intro hany
    have hex : ∃ x ∈ sv.bitmap.take (8 * sv.n_bytes), id x = true := by
      simpa [SelectionVector.anySelected, List.any_eq_true] using hany
    obtain ⟨x, hxmem, hxid⟩ := hex
    have hxtrue : x = true := hxid
    subst hxtrue
    obtain ⟨i, hi⟩ := List.mem_iff_get?.mp hxmem
    have hilt : i < 8 * sv.n_bytes := by
      by_contra hge
      have hlen2 : (sv.bitmap.take (8 * sv.n_bytes)).length ≤ i := by
        have := List.length_take_le (8 * sv.n_bytes) sv.bitmap
        omega
      rw [List.get?_len_le hlen2] at hi
      exact Option.noConfusion hi
    have hbit : sv.bitmap.getD i false = true := by
      rw [← getD_take_of_lt hilt]
      exact getD_eq_of_get? hi
    refine ⟨i, ?_, hbit⟩
    by_contra hge
    have hz := hpad i (not_lt.mp hge) hilt
    rw [hz] at hbit
    exact Bool.noConfusion hbit

theorem C10_selection_vector_padding_witness :
    (List.replicate 16 true).length = 8 * BitmapSize 13 ∧
    (∀ i, (SelectionVector.construct 13 (List.replicate 16 true)).n_rows ≤ i →
      i < 8 * (SelectionVector.construct 13 (List.replicate 16 true)).n_bytes →
      (SelectionVector.construct 13 (List.replicate 16 true)).bitmap.getD i false
        = false) ∧
    (SelectionVector.construct 13 (List.replicate 16 true)).countSelected ≤
      (SelectionVector.construct 13 (List.replicate 16 true)).n_rows :=
  ⟨by decide, by decide,
   (C10_selection_vector_padding 13 (List.replicate 16 true)
      (SelectionVector.construct 13 (List.replicate 16 true))
      (by decide) (by decide)).2.2.1⟩

theorem find?_append_cases {α : Type} (p : α → Bool) :
    ∀ (l t : List α), (l ++ t).find? p =
      match l.find? p with
      | some x => some x
      | none => t.find? p := by
  intro l t
  induction l with
  | nil => simp
  | cons a l ih =>
    by_cases h : p a
    · simp [List.find?_cons, h]
    · simp [List.find?_cons, h, ih]

theorem findCopy_mono {m dm : List (String × Nat)} {v : String} {cw : Nat}
    (h : findCopy m v = some cw) : findCopy (m ++ dm) v = some cw := by
  unfold findCopy at h ⊢
  rw [find?_append_cases]
  cases hf : m.find? (fun p => p.1 == v) with
  | none => rw [hf] at h; exact Option.noConfusion h
  | some x => rw [hf] at h; exact h

theorem findCopy_append_single {m : List (String × Nat)} {v : String} {c : Nat}
    (h : findCopy m v = none) : findCopy (m ++ [(v, c)]) v = some c := by
  unfold findCopy at h ⊢
  rw [find?_append_cases]
  cases hf : m.find? (fun p => p.1 == v) with
  | none => simp [List.find?_cons]
  | some x => rw [hf] at h; exact Option.noConfusion h

theorem get?_append_some {α : Type} {l t : List α} {i : Nat} {x : α}
    (h : l.get? i = some x) : (l ++ t).get? i = some x := by
  have hlt : i < l.length := by
    by_contra hge
    rw [List.get?_len_le (not_lt.mp hge)] at h
    exact Option.noConfusion h
  rw [List.get?_append hlt]
  exact h

theorem findCopy_consistent {d : BinaryPlainBlockBuilder}
    {m : List (String × Nat)} {v : String} {cw : Nat}
    (hinv : dictConsistent d m) (h : findCopy m v = some cw) :
    d.entries.get? cw = some v := by
  unfold findCopy at h
  cases hf : m.find? (fun p => p.1 == v) with
  | none => rw [hf] at h; exact Option.noConfusion h
  | some x =>
    rw [hf] at h
    have hmem := List.mem_of_find?_eq_some hf
    have hpred := List.find?_some hf
    have hx1 : x.1 = v := by simpa using hpred
    have hx2 : x.2 = cw := by simpa using h
    have := hinv x hmem
    rw [hx1, hx2] at this
    exact this

theorem bshuf_addOne_fst_zero {db : BShufBlockBuilderU32} {cw : Nat} :
    (db.addOne cw).1 = 0 ↔ db.isBlockFull = true := by
  unfold BShufBlockBuilderU32.addOne BShufBlockBuilderU32.isBlockFull
  by_cases h : db.capacity ≤ db.vals.length <;> simp [h]

theorem bshuf_addOne_vals {db : BShufBlockBuilderU32} {cw : Nat}
    (h : (db.addOne cw).1 ≠ 0) : (db.addOne cw).2.vals = db.vals ++ [cw] := by
  unfold BShufBlockBuilderU32.addOne at h ⊢
  by_cases hc : db.capacity ≤ db.vals.length
  · rw [if_pos hc] at h; exact absurd rfl h
  · rw [if_neg hc]

theorem addToDict_none {d : BinaryPlainBlockBuilder} {m : List (String × Nat)}
    {v : String} (h : addToDict d m v = none) : d.isBlockFull = true := by
  unfold addToDict at h
  cases hf : d.addOne v with
  | none =>
    unfold BinaryPlainBlockBuilder.addOne at hf
    by_cases hc : d.isBlockFull
    · exact hc
    · rw [if_neg hc] at hf; exact Option.noConfusion hf
  | some db => rw [hf] at h; simp at h

theorem addToDict_some {d : BinaryPlainBlockBuilder} {m : List (String × Nat)}
    {v : String} {cw : Nat} {d1 : BinaryPlainBlockBuilder}
    {m1 : List (String × Nat)}
    (h : addToDict d m v = some (cw, d1, m1)) :
    d1.entries = d.entries ++ [v] ∧ cw = d.entries.length ∧
      m1 = m ++ [(v, cw)] := by
  unfold addToDict at h
  cases hf : d.addOne v with
  | none => rw [hf] at h; exact Option.noConfusion h
  | some db =>
    rw [hf] at h
    unfold BinaryPlainBlockBuilder.addOne at hf
    by_cases hc : d.isBlockFull
    · rw [if_pos hc] at hf; exact Option.noConfusion hf
    · rw [if_neg hc] at hf
      have hdb : db = { d with entries := d.entries ++ [v],
                               sizeEstimate := d.sizeEstimate + v.length + 4 } := by
        injection hf with hf2
        exact hf2.symm
      subst hdb
      simp only [Option.some.injEq, Prod.mk.injEq] at h
      obtain ⟨hcw, hd1, hm1⟩ := h
      subst hd1
      refine ⟨rfl, ?_, ?_⟩
      · rw [← hcw]; simp
      · rw [← hm1, hcw]

theorem dictConsistent_insert {d : BinaryPlainBlockBuilder}
    {m : List (String × Nat)} {v : String} {cw : Nat}
    {d1 : BinaryPlainBlockBuilder} {m1 : List (String × Nat)}
    (hinv : dictConsistent d m) (h : addToDict d m v = some (cw, d1, m1)) :
    dictConsistent d1 m1 := by
  obtain ⟨he, hcw, hm⟩ := addToDict_some h
  subst hm
  intro p hp
  rcases List.mem_append.mp hp with hold | hnew
  · rw [he]
    exact get?_append_some (hinv p hold)
  · have : p = (v, cw) := by simpa using hnew
    subst this
    rw [he, hcw]
    exact List.get?_concat_length d.entries v

theorem addCodeWordsLoop_spec :
    ∀ (vs : List String) (d : BinaryPlainBlockBuilder) (m : List (String × Nat))
      (db : BShufBlockBuilderU32) (i : Nat) (d2 : BinaryPlainBlockBuilder)
      (m2 : List (String × Nat)) (db2 : BShufBlockBuilderU32),
      dictConsistent d m →
      addCodeWordsLoop d m db vs = (i, d2, m2, db2) →
      i ≤ vs.length ∧ dictConsistent d2 m2 ∧
      (∃ de, d2.entries = d.entries ++ de) ∧
      (∃ dm, m2 = m ++ dm) ∧
      (∃ cws, db2.vals = db.vals ++ cws ∧ cws.length = i ∧
        (∀ j, j < i → findCopy m2 (vs.getD j "") = some (cws.getD j 0) ∧
          d2.entries.get? (cws.getD j 0) = some (vs.getD j ""))) ∧
      (i < vs.length → db2.isBlockFull = true ∨
        (d2.isBlockFull = true ∧ findCopy m2 (vs.getD i "") = none)) := by
  intro vs
  induction vs with
  | nil =>
    intro d m db i d2 m2 db2 hinv heq
    rw [addCodeWordsLoop] at heq
    simp only [Prod.mk.injEq] at heq
    obtain ⟨hi, hd, hm, hdb⟩ := heq
    subst hi; subst hd; subst hm; subst hdb
    exact ⟨Nat.le_refl 0, hinv, ⟨[], by simp⟩, ⟨[], by simp⟩,
      ⟨[], by simp, rfl, fun j hj => absurd hj (Nat.not_lt_zero j)⟩,
      fun h => absurd h (Nat.not_lt_zero 0)⟩
  | cons v vs ih =>
    intro d m db i d2 m2 db2 hinv heq
    rw [addCodeWordsLoop] at heq
    cases hfind : findCopy m v with
    | some cw =>
      rw [hfind] at heq
      simp only at heq
      by_cases hfull : (db.addOne cw).1 = 0
      · rw [if_pos hfull] at heq
        simp only [Prod.mk.injEq] at heq
        obtain ⟨hi, hd, hm, hdb⟩ := heq
        subst hi; subst hd; subst hm; subst hdb
        refine ⟨Nat.zero_le _, hinv, ⟨[], by simp⟩, ⟨[], by simp⟩,
          ⟨[], by simp, rfl, fun j hj => absurd hj (Nat.not_lt_zero j)⟩, ?_⟩
        intro _
        exact Or.inl (bshuf_addOne_fst_zero.mp hfull)
      · rw [if_neg hfull] at heq
        rcases hr : addCodeWordsLoop d m (db.addOne cw).2 vs with ⟨i1, dd, mm, dbb⟩
        rw [hr] at heq
        simp only [Prod.mk.injEq] at heq
        obtain ⟨hi, hd, hm, hdb⟩ := heq
        subst hi; subst hd; subst hm; subst hdb
        obtain ⟨hle, hinv2, ⟨de, hde⟩, ⟨dm, hdm⟩, ⟨cws, hcv, hcl, hcp⟩, hbr⟩ :=
          ih d m (db.addOne cw).2 i1 dd mm dbb hinv hr
        refine ⟨by simpa using Nat.succ_le_succ hle, hinv2, ⟨de, hde⟩, ⟨dm, hdm⟩, ?_, ?_⟩
        · refine ⟨cw :: cws, ?_, by simpa using hcl, ?_⟩
          · rw [hcv, bshuf_addOne_vals hfull]
            simp
          · intro j hj
            cases j with
            | zero =>
              constructor
              · show findCopy mm v = some cw
                rw [hdm]
                exact findCopy_mono hfind
              · show dd.entries.get? cw = some v
                rw [hde]
                exact get?_append_some (findCopy_consistent hinv hfind)
            | succ j => exact hcp j (Nat.lt_of_succ_lt_succ hj)
        · intro h
          exact hbr (Nat.lt_of_succ_lt_succ h)
    | none =>
      rw [hfind] at heq
      simp only at heq
      cases hdict : addToDict d m v with
      | none =>
        rw [hdict] at heq
        simp only [Prod.mk.injEq] at heq
        obtain ⟨hi, hd, hm, hdb⟩ := heq
        subst hi; subst hd; subst hm; subst hdb
        refine ⟨Nat.zero_le _, hinv, ⟨[], by simp⟩, ⟨[], by simp⟩,
          ⟨[], by simp, rfl, fun j hj => absurd hj (Nat.not_lt_zero j)⟩, ?_⟩
        intro _
        exact Or.inr ⟨addToDict_none hdict, hfind⟩
      | some res =>
        obtain ⟨cw, d1, m1⟩ := res
        rw [hdict] at heq
        simp only at heq
        have hinv1 : dictConsistent d1 m1 := dictConsistent_insert hinv hdict
        obtain ⟨hent, hcw, hm1⟩ := addToDict_some hdict
        by_cases hfull : (db.addOne cw).1 = 0
        · rw [if_pos hfull] at heq
          simp only [Prod.mk.injEq] at heq
          obtain ⟨hi, hd, hm, hdb⟩ := heq
          subst hi; subst hd; subst hm; subst hdb
          refine ⟨Nat.zero_le _, hinv1, ⟨[v], by rw [hent]⟩,
            ⟨[(v, cw)], by rw [hm1]⟩,
            ⟨[], by simp, rfl, fun j hj => absurd hj (Nat.not_lt_zero j)⟩, ?_⟩
          intro _
          exact Or.inl (bshuf_addOne_fst_zero.mp hfull)
        · rw [if_neg hfull] at heq
          rcases hr : addCodeWordsLoop d1 m1 (db.addOne cw).2 vs with ⟨i1, dd, mm, dbb⟩
          rw [hr] at heq
          simp only [Prod.mk.injEq] at heq
          obtain ⟨hi, hd, hm, hdb⟩ := heq
          subst hi; subst hd; subst hm; subst hdb
          obtain ⟨hle, hinv2, ⟨de, hde⟩, ⟨dm, hdm⟩, ⟨cws, hcv, hcl, hcp⟩, hbr⟩ :=
            ih d1 m1 (db.addOne cw).2 i1 dd mm dbb hinv1 hr
          refine ⟨by simpa using Nat.succ_le_succ hle, hinv2, ?_, ?_, ?_, ?_⟩
          · refine ⟨[v] ++ de, ?_⟩
            rw [hde, hent, List.append_assoc]
          · refine ⟨[(v, cw)] ++ dm, ?_⟩
            rw [hdm, hm1, List.append_assoc]
          · refine ⟨cw :: cws, ?_, by simpa using hcl, ?_⟩
            · rw [hcv, bshuf_addOne_vals hfull]
              simp
            · intro j hj
              cases j with
              | zero =>
                have hf1 : findCopy m1 v = some cw := by
                  rw [hm1]
                  exact findCopy_append_single hfind
                constructor
                · show findCopy mm v = some cw
                  rw [hdm]
                  exact findCopy_mono hf1
                · show dd.entries.get? cw = some v
                  have hone : d1.entries.get? cw = some v := by
                    rw [hent, hcw]
                    exact List.get?_concat_length d.entries v
                  rw [hde]
                  exact get?_append_some hone
              | succ j => exact hcp j (Nat.lt_of_succ_lt_succ hj)
          · intro h
            exact hbr (Nat.lt_of_succ_lt_succ h)

/-- C9: for a builder in codeword mode (whose data builder is the codeword
bshuf builder, as the constructor and `Reset` guarantee) with a consistent
dictionary, `Add` on a non-empty input of `n` values returns a count
`i <= n`; exactly the first `i` values were appended to the data block, each
as the codeword its string maps to in the final dictionary (the codeword
under which it was first inserted, since the dictionary only grows) and
whose dictionary-block entry holds exactly that string; and `i < n` only
when either the data block reports full or the dictionary block reports full
while the value at position `i` is not already in the dictionary. -/
theorem C9_add_codewords (b : BinaryDictBlockBuilder) (vs : List String)
    (db : BShufBlockBuilderU32) (i : Nat) (b2 : BinaryDictBlockBuilder)
    (hmode : b.mode = .kCodeWordMode) (hdb : b.data_builder = .bshuf db)
    (hinv : dictConsistent b.dict_block b.dictionary) (hne : vs ≠ [])
    (heq : b.add vs = (i, b2)) :
    i ≤ vs.length ∧
    (∃ db2 cws, b2.data_builder = .bshuf db2 ∧
      db2.vals = db.vals ++ cws ∧ cws.length = i ∧
      (∀ j, j < i →
        findCopy b2.dictionary (vs.getD j "") = some (cws.getD j 0) ∧
        b2.dict_block.entries.get? (cws.getD j 0) = some (vs.getD j "")) ∧
      (i < vs.length →
        db2.isBlockFull = true ∨
        (b2.dict_block.isBlockFull = true ∧
         findCopy b2.dictionary (vs.getD i "") = none))) := by
  rw [BinaryDictBlockBuilder.add] at heq
  rw [hmode] at heq
  simp only at heq
  rw [BinaryDictBlockBuilder.addCodeWords] at heq
  rw [hdb] at heq
  simp only at heq
  rcases hr : addCodeWordsLoop b.dict_block b.dictionary db vs with ⟨i1, dd, mm, dbb⟩
  rw [hr] at heq
  simp only [Prod.mk.injEq] at heq
  obtain ⟨hi, hb2⟩ := heq
  subst hi
  obtain ⟨hle, hinv2, ⟨de, hde⟩, ⟨dm, hdm⟩, ⟨cws, hcv, hcl, hcp⟩, hbr⟩ :=
    addCodeWordsLoop_spec vs b.dict_block b.dictionary db i1 dd mm dbb hinv hr
  refine ⟨hle, ⟨dbb, cws, ?_, hcv, hcl, ?_, ?_⟩⟩
  · rw [← hb2]
  · intro j hj
    rw [← hb2]
    exact hcp j hj
  · intro h
    rw [← hb2]
    exact hbr h

theorem C9_add_codewords_witness :
    dictConsistent (BinaryDictBlockBuilder.mkNew 100 10).dict_block
        (BinaryDictBlockBuilder.mkNew 100 10).dictionary ∧
    (["a", "b", "a"] : List String) ≠ [] ∧
    ((BinaryDictBlockBuilder.mkNew 100 10).add ["a", "b", "a"]).1 ≤ 3 :=
  ⟨fun p hp => absurd hp (List.not_mem_nil p), by decide,
   (C9_add_codewords (BinaryDictBlockBuilder.mkNew 100 10) ["a", "b", "a"]
      ⟨10, []⟩ ((BinaryDictBlockBuilder.mkNew 100 10).add ["a", "b", "a"]).1
      ((BinaryDictBlockBuilder.mkNew 100 10).add ["a", "b", "a"]).2
      rfl rfl (fun p hp => absurd hp (List.not_mem_nil p))
      (by decide) rfl).1⟩
